import Mathlib

/-!
Verification of the request-handling pipeline of gohttpd (src/httpd.go).

Paths and header values are modelled as lists of characters (`GoStr`).
The filesystem is an oracle (`FS`) supplying the results of os.Stat,
os.Open and ioutil.ReadDir, plus whether executing the listing template
on a given directory fails at runtime (e.g. a write error to the client).
The handler `requestHandler` is a direct translation of the Go function
of the same name; it returns the produced response together with the
list of filesystem paths it passed to stat/open/readdir, in order.
-/

/-- Go strings, modelled as lists of characters. -/
abbrev GoStr := List Char

/-- The ".." path element. -/
def dd : GoStr := ['.', '.']

/-- `begins n h` is true when `n` is a prefix of `h`
(models Go strings.HasPrefix). -/
def begins : GoStr → GoStr → Bool
  | [], _ => true
  | _ :: _, [] => false
  | a :: as, b :: bs => a == b && begins as bs

/-- `hasSub n h` is true when `n` occurs as a contiguous substring of `h`
(models Go strings.Index(h, n) != -1 and strings.Contains(h, n)). -/
def hasSub (n : GoStr) : GoStr → Bool
  | [] => begins n []
  | c :: t => begins n (c :: t) || hasSub n t

/-- Split a string on the separator character (slash), keeping empty
segments, as Go strings.Split(s, "/") does. -/
def splitSeg : GoStr → List GoStr
  | [] => [[]]
  | c :: cs =>
    if c = '/' then [] :: splitSeg cs
    else
      match splitSeg cs with
      | [] => [[c]]
      | s :: rest => (c :: s) :: rest

/-- Helper of `joinSeg`: the remaining segments, each preceded by a slash. -/
def joinRest : List GoStr → GoStr
  | [] => []
  | s :: t => '/' :: (s ++ joinRest t)

/-- Join segments with the separator character (inverse of `splitSeg`
on slash-free segments). -/
def joinSeg : List GoStr → GoStr
  | [] => []
  | s :: t => s ++ joinRest t

/-- One step of lexical path cleaning: process one segment against the
stack of output segments (stack is held top-first).  Models the body of
the loop of Go path.Clean: empty and "." segments are dropped; ".."
pops a non-".." top, is dropped at the root of a rooted path, and is
kept for a relative path; every other segment is pushed. -/
def cleanFold (rooted : Bool) (stack : List GoStr) (seg : GoStr) : List GoStr :=
  if seg = [] ∨ seg = ['.'] then stack
  else if seg = dd then
    match stack with
    | [] => if rooted then [] else [dd]
    | t :: rest => if t = dd then dd :: t :: rest else rest
  else seg :: stack

/-- The final stack of segments produced by cleaning `p`. -/
def cleanStackOf (p : GoStr) : List GoStr :=
  (splitSeg p).foldl (cleanFold (p.headD ' ' == '/')) []

/-- Lexical path cleaning, modelling Go filepath.Clean (path.Clean on
the slash separator): resolve "." and ".." elements, collapse repeated
slashes, drop trailing slashes; the empty path and a path that cleans
to nothing become ".". -/
def goClean (p : GoStr) : GoStr :=
  if p = [] then ['.']
  else
    let body := joinSeg (cleanStackOf p).reverse
    if p.headD ' ' == '/' then '/' :: body
    else if body = [] then ['.'] else body

/-- Models gohttpd's isHiddenPath (src/httpd.go lines 196-198):
`len(path) > 1 && path[0] == '.' || strings.Index(path, "/.") != -1`
(Go precedence: the conjunction binds tighter than the disjunction). -/
def isHiddenPath (path : GoStr) : Bool :=
  (decide (1 < path.length) && (path.headD ' ' == '.')) || hasSub ['/', '.'] path

-- quick sanity checks of the lexical layer against Go behaviour
example : goClean "a/./b".toList = "a/b".toList := by decide
example : goClean "a/../../b".toList = "../b".toList := by decide
example : goClean "".toList = ".".toList := by decide
example : goClean "/etc/passwd".toList = "/etc/passwd".toList := by decide
example : goClean "a//b/".toList = "a/b".toList := by decide
example : isHiddenPath "../b".toList = true := by decide
example : isHiddenPath "a/.env".toList = true := by decide
example : isHiddenPath ".".toList = false := by decide
example : isHiddenPath "a/b".toList = false := by decide

/-- Result of one os.Stat call: directory flag, size in bytes, and
modification time in nanoseconds on the absolute UTC timeline. -/
structure FileStat where
  isDir : Bool
  size : Int
  modTimeNs : Int
deriving DecidableEq

/-- One entry of an ioutil.ReadDir result (an os.FileInfo). -/
structure DirEnt where
  name : GoStr
  isDir : Bool
  size : Int
  modTimeNs : Int
deriving DecidableEq

/-- The filesystem oracle: outcomes of the system calls the handler
performs, plus whether executing the listing template on a directory
fails at runtime (template.Execute returning an error, e.g. because
the client connection broke mid-write). -/
structure FS where
  stat : GoStr → Option FileStat
  readDir : GoStr → Option (List DirEnt)
  openOK : GoStr → Bool
  execError : GoStr → Bool

/-- The parts of an http.Request the handler reads.  `ifModifiedSince`
is the result of time.Parse(http.TimeFormat, header) in nanoseconds:
`none` when the header is absent or fails to parse (real HTTP dates are
whole-second, i.e. multiples of 10^9 ns). -/
structure Request where
  method : GoStr
  urlPath : GoStr
  ifModifiedSince : Option Int
  acceptEncoding : GoStr

/-- The observable response of the handler.
`served path mime lastModified gzipped headOnly` is a 200 answer whose
Content-Type is `mime`; `gzipped = true` means the Content-Encoding
header was set to gzip and the body passed through the pooled gzip
writer; `headOnly = true` means a HEAD answer with no body.
`notModified` is a 304 with no body (Last-Modified and Content-Type
were set before it).  `panicked` is the uncaught panic escaping
showListing. -/
inductive Response where
  | methodNotAllowed : Response
  | notFound : Response
  | movedPermanently : GoStr → Response
  | notModified : GoStr → Int → GoStr → Response
  | listingPage : GoStr → List DirEnt → Response
  | panicked : Response
  | served : GoStr → GoStr → Int → Bool → Bool → Response
deriving DecidableEq

/-- The MIME table of src/httpd.go lines 19-64 (a Go map; represented
as an association list, key order irrelevant because keys are distinct). -/
def mimes : List (GoStr × GoStr) := [
  ("html".toList, "text/html".toList),
  ("js".toList, "application/javascript".toList),
  ("css".toList, "text/css".toList),
  ("xml".toList, "text/xml".toList),
  ("xhtml".toList, "application/xhtml+xml".toList),
  ("txt".toList, "text/plain".toList),
  ("json".toList, "application/json".toList),
  ("png".toList, "image/png".toList),
  ("jpg".toList, "image/jpeg".toList),
  ("jpeg".toList, "image/jpeg".toList),
  ("gif".toList, "image/gif".toList),
  ("svg".toList, "image/svg+xml".toList),
  ("webp".toList, "image/webp".toList),
  ("ico".toList, "image/x-icon".toList),
  ("mp3".toList, "audio/mpeg".toList),
  ("ogg".toList, "audio/ogg".toList),
  ("m4a".toList, "audio/x-m4a".toList),
  ("avi".toList, "video/x-msvideo".toList),
  ("mp4".toList, "video/mp4".toList),
  ("mov".toList, "video/quicktime".toList),
  ("ts".toList, "video/mp2t".toList),
  ("webm".toList, "video/webm".toList),
  ("m3u8".toList, "application/vnd.apple.mpegurl".toList),
  ("eot".toList, "application/vnd.ms-fontobject".toList),
  ("ttf".toList, "font/ttf".toList),
  ("woff".toList, "font/woff".toList),
  ("woff2".toList, "font/woff2".toList),
  ("otf".toList, "font/otf".toList),
  ("pdf".toList, "application/pdf".toList),
  ("csv".toList, "text/csv".toList),
  ("7z".toList, "application/x-ms-compressed".toList),
  ("zip".toList, "application/zip".toList),
  ("rar".toList, "application/x-rar-compressed".toList)]

/-- Go map indexing `table[key]`: `some` value with the comma-ok true,
`none` when the key is absent. -/
def lookupTable (key : GoStr) : List (GoStr × GoStr) → Option GoStr
  | [] => none
  | (k, v) :: t => if k = key then some v else lookupTable key t

/-- compressExts of src/httpd.go lines 66-79. -/
def compressExts : List GoStr := [
  "css".toList, "csv".toList, "eot".toList, "html".toList,
  "js".toList, "json".toList, "otf".toList, "svg".toList,
  "ttf".toList, "txt".toList, "xhtml".toList, "xml".toList]

/-- indexFiles of src/httpd.go lines 81-84. -/
def indexFiles : List GoStr := ["index.html".toList, "index.xhtml".toList]

/-- Models gohttpd's stringInSlice (src/httpd.go lines 186-194). -/
def stringInSlice (a : GoStr) : List GoStr → Bool
  | [] => false
  | b :: rest => if b = a then true else stringInSlice a rest

/-- Loop of Go filepath.Ext: walk the path backwards (the argument is
the reversed path, `seen` the characters already walked in original
order); stop empty at a separator, return the suffix from the last dot. -/
def goExtLoop (seen : GoStr) : GoStr → GoStr
  | [] => []
  | c :: rest =>
    if c = '/' then []
    else if c = '.' then c :: seen
    else goExtLoop (c :: seen) rest

/-- The extension the handler computes (src/httpd.go lines 286-289):
filepath.Ext, with the leading dot stripped when non-empty. -/
def goExt (path : GoStr) : GoStr :=
  match goExtLoop [] path.reverse with
  | [] => []
  | _ :: t => t

/-- Truncation of a nanosecond timestamp to whole seconds, modelling
t.UTC().Truncate(time.Second) (rounds down; Lean's Int emod is
non-negative, matching Go's rounding toward the zero time). -/
def truncSec (ns : Int) : Int := ns - ns % 1000000000

/-- The If-Modified-Since comparison of src/httpd.go lines 305-313:
true when the header parsed and the truncated modification time is
Before or Equal the parsed time. -/
def imsMatch (req : Request) (st : FileStat) : Bool :=
  match req.ifModifiedSince with
  | some since => decide (truncSec st.modTimeNs ≤ since)
  | none => false

/-- The file-serving tail of requestHandler (src/httpd.go lines
278-335): open the file (404 on failure), derive extension and MIME
type, answer 304 on an If-Modified-Since match, stop after headers for
HEAD, otherwise serve the body, gzip-compressed exactly when the size
exceeds 1024, the client accepts gzip, and the extension is non-empty
and in compressExts.  Also returns the paths passed to the filesystem. -/
def serveFile (fs : FS) (req : Request) (path : GoStr) (st : FileStat) :
    Response × List GoStr :=
  if fs.openOK path = false then (.notFound, [path])
  else
    let extension := goExt path
    let mimeType := (lookupTable extension mimes).getD "application/octet-stream".toList
    let lastModified := truncSec st.modTimeNs
    if imsMatch req st then (.notModified path lastModified mimeType, [path])
    else if req.method = "HEAD".toList then
      (.served path mimeType lastModified false true, [path])
    else
      let gz := decide (1024 < st.size) && hasSub "gzip".toList req.acceptEncoding
        && !(extension == []) && stringInSlice extension compressExts
      (.served path mimeType lastModified gz false, [path])

/-- The index-file probe loop of src/httpd.go lines 254-265: stat each
candidate `path/i` in order; the first that exists and is not a
directory wins (with its stat); also returns the probed paths. -/
def probeIndex (fs : FS) (path : GoStr) :
    List GoStr → Option (GoStr × FileStat) × List GoStr
  | [] => (none, [])
  | i :: rest =>
    let ipath := path ++ '/' :: i
    match fs.stat ipath with
    | some st =>
      if st.isDir = false then (some (ipath, st), [ipath])
      else
        let r := probeIndex fs path rest
        (r.1, ipath :: r.2)
    | none =>
      let r := probeIndex fs path rest
      (r.1, ipath :: r.2)

/-- The rows the listing template renders: the template at src/httpd.go
line 137 skips an entry when its first byte is 46, i.e. when the name
starts with a dot. -/
def renderedEntries (files : List DirEnt) : List DirEnt :=
  files.filter (fun f => !(f.name.headD ' ' == '.'))

/-- Models gohttpd's showListing (src/httpd.go lines 200-220): read the
directory (404 on failure); the constant template always parses, so the
first panic is unreachable; a template.Execute error is re-thrown as a
panic (line 218), modelled by the `panicked` response. -/
def showListing (fs : FS) (path : GoStr) : Response × List GoStr :=
  match fs.readDir path with
  | none => (.notFound, [path])
  | some files =>
    if fs.execError path then (.panicked, [path])
    else (.listingPage path files, [path])

/-- The directory branch of requestHandler (src/httpd.go lines
244-276): redirect a non-root directory requested without a trailing
slash to "/path/", otherwise probe the index files; a found index file
is served in place of the directory, and with none found the listing is
shown when enabled, else 404. -/
def dirStage (fs : FS) (listDir : Bool) (req : Request) (path : GoStr) :
    Response × List GoStr :=
  if path ≠ ['.'] ∧ req.urlPath.getLastD ' ' ≠ '/' then
    (.movedPermanently ('/' :: path ++ ['/']), [])
  else
    match probeIndex fs path indexFiles with
    | (some (ipath, ist), probed) =>
      let s := serveFile fs req ipath ist
      (s.1, probed ++ s.2)
    | (none, probed) =>
      if listDir then
        let s := showListing fs path
        (s.1, probed ++ s.2)
      else (.notFound, probed)

/-- Models gohttpd's requestHandler (src/httpd.go lines 222-335).
Returns the response and the list of filesystem paths passed to
stat/open/readdir, in order. -/
def requestHandler (fs : FS) (listDir : Bool) (req : Request) :
    Response × List GoStr :=
  if req.method ≠ "GET".toList ∧ req.method ≠ "HEAD".toList then
    (.methodNotAllowed, [])
  else
    let path := goClean (req.urlPath.drop 1)
    if isHiddenPath path then (.notFound, [])
    else
      match fs.stat path with
      | none => (.notFound, [path])
      | some st =>
        if st.isDir then
          let d := dirStage fs listDir req path
          (d.1, path :: d.2)
        else
          let s := serveFile fs req path st
          (s.1, path :: s.2)

/-- True exactly on 304 responses. -/
def respIs304 : Response → Bool
  | .notModified _ _ _ => true
  | _ => false

/-- The gzip flag of a body-carrying 200 response. -/
def respGz : Response → Option Bool
  | .served _ _ _ gz _ => some gz
  | _ => none

/-- Spec-side definition of root confinement (section 4.1 of the spec:
a relative path confined to the server root): the path does not leave
the server root, i.e. it is not absolute and contains no ".." segment. -/
def confinedToRoot (p : GoStr) : Prop :=
  p.headD ' ' ≠ '/' ∧ dd ∉ splitSeg p

instance (p : GoStr) : Decidable (confinedToRoot p) := by
  unfold confinedToRoot
  infer_instance

/-! ### Basic facts about substrings and segment splitting -/

theorem begins_trans {a b c : GoStr} (h1 : begins a b = true)
    (h2 : begins b c = true) : begins a c = true := by
  induction a generalizing b c with
  | nil => simp [begins]
  | cons x xs ih =>
    cases b with
    | nil => simp [begins] at h1
    | cons y ys =>
      cases c with
      | nil => simp [begins] at h2
      | cons z zs =>
        simp [begins] at h1 h2 ⊢
        exact ⟨h1.1.trans h2.1, ih h1.2 h2.2⟩

theorem hasSub_cons {n : GoStr} (c : Char) {t : GoStr}
    (h : hasSub n t = true) : hasSub n (c :: t) = true := by
  simp [hasSub]
  exact Or.inr h

theorem hasSub_of_begins {n h : GoStr} (hb : begins n h = true) :
    hasSub n h = true := by
  cases h with
  | nil => simpa [hasSub] using hb
  | cons c t =>
    simp [hasSub]
    exact Or.inl hb

theorem hasSub_mono {n m cs : GoStr} (hb : begins n m = true)
    (hs : hasSub m cs = true) : hasSub n cs = true := by
  induction cs with
  | nil =>
    simp [hasSub] at hs ⊢
    exact begins_trans hb hs
  | cons c t ih =>
    simp [hasSub] at hs ⊢
    rcases hs with h | h
    · exact Or.inl (begins_trans hb h)
    · exact Or.inr (ih h)

theorem splitSeg_ne_nil (cs : GoStr) : splitSeg cs ≠ [] := by
  cases cs with
  | nil => simp [splitSeg]
  | cons c t =>
    simp only [splitSeg]
    split
    · simp
    · split <;> simp

theorem head_splitSeg_begins (cs : GoStr) :
    begins ((splitSeg cs).headD []) cs = true := by
  induction cs with
  | nil => simp [splitSeg, begins]
  | cons c t ih =>
    by_cases hc : c = '/'
    · simp [splitSeg, hc, begins]
    · cases h : splitSeg t with
      | nil => exact absurd h (splitSeg_ne_nil t)
      | cons s rest =>
        rw [h] at ih
        simp [splitSeg, hc, h, begins]
        simpa using ih

theorem mem_tail_hasSub (cs : GoStr) (seg : GoStr)
    (hm : seg ∈ (splitSeg cs).tail) : hasSub ('/' :: seg) cs = true := by
  induction cs with
  | nil => simp [splitSeg] at hm
  | cons c t ih =>
    by_cases hc : c = '/'
    · have hsp : splitSeg (c :: t) = [] :: splitSeg t := by simp [splitSeg, hc]
      rw [hsp, List.tail_cons] at hm
      cases hh : splitSeg t with
      | nil => exact absurd hh (splitSeg_ne_nil t)
      | cons s rest =>
        rw [hh] at hm
        rcases List.mem_cons.mp hm with rfl | hm'
        · have hb := head_splitSeg_begins t
          rw [hh] at hb
          simp at hb
          have hb2 : begins ('/' :: seg) (c :: t) = true := by
            simp [begins, hc, hb]
          exact hasSub_of_begins hb2
        · have := ih (by rw [hh, List.tail_cons]; exact hm')
          exact hasSub_cons _ this
    · cases hh : splitSeg t with
      | nil => exact absurd hh (splitSeg_ne_nil t)
      | cons s rest =>
        have hsp : splitSeg (c :: t) = (c :: s) :: rest := by
          simp [splitSeg, hc, hh]
        rw [hsp, List.tail_cons] at hm
        have hm2 : seg ∈ (splitSeg t).tail := by
          rw [hh, List.tail_cons]
          exact hm
        exact hasSub_cons c (ih hm2)

/-- A path other than "." one of whose slash-split segments starts with
a dot is rejected by isHiddenPath. -/
theorem segdot_hidden (cs seg : GoStr) (hroot : cs ≠ ['.'])
    (hm : seg ∈ splitSeg cs) (hd : seg.headD ' ' = '.') :
    isHiddenPath cs = true := by
  cases seg with
  | nil => simp at hd
  | cons s0 seg' =>
    simp at hd
    subst hd
    cases hsp : splitSeg cs with
    | nil => exact absurd hsp (splitSeg_ne_nil cs)
    | cons h0 rest =>
      rw [hsp] at hm
      rcases List.mem_cons.mp hm with rfl | hm'
      · have hb := head_splitSeg_begins cs
        rw [hsp] at hb
        simp at hb
        cases cs with
        | nil => simp [begins] at hb
        | cons c0 cs0 =>
          simp [begins] at hb
          obtain ⟨hb1, hb2⟩ := hb
          subst hb1
          cases cs0 with
          | nil => exact absurd rfl hroot
          | cons c1 cs1 => simp [isHiddenPath]
      · have hs := mem_tail_hasSub cs ('.' :: seg') (by rw [hsp, List.tail_cons]; exact hm')
        have hb : begins ['/', '.'] ('/' :: '.' :: seg') = true := by
          simp [begins]
        have hfin := hasSub_mono hb hs
        simp [isHiddenPath]
        exact Or.inr hfin

theorem splitSeg_noslash (cs : GoStr) : ∀ s ∈ splitSeg cs, '/' ∉ s := by
  induction cs with
  | nil =>
    intro s hs
    simp [splitSeg] at hs
    simp [hs]
  | cons c t ih =>
    intro s hs
    by_cases hc : c = '/'
    · rw [show splitSeg (c :: t) = [] :: splitSeg t by simp [splitSeg, hc]] at hs
      rcases List.mem_cons.mp hs with rfl | hs'
      · simp
      · exact ih s hs'
    · cases hh : splitSeg t with
      | nil => exact absurd hh (splitSeg_ne_nil t)
      | cons s0 rest =>
        rw [show splitSeg (c :: t) = (c :: s0) :: rest by simp [splitSeg, hc, hh]] at hs
        rcases List.mem_cons.mp hs with rfl | hs'
        · intro hmem
          rcases List.mem_cons.mp hmem with rfl | hmem'
          · exact hc rfl
          · exact ih s0 (by rw [hh]; exact List.mem_cons_self s0 rest) hmem'
        · exact ih s (by rw [hh]; exact List.mem_cons_of_mem s0 hs')

theorem splitSeg_append (a b : GoStr) :
    splitSeg (a ++ '/' :: b) = splitSeg a ++ splitSeg b := by
  induction a with
  | nil => simp [splitSeg]
  | cons c a' ih =>
    by_cases hc : c = '/'
    · simp only [List.cons_append]
      rw [show splitSeg (c :: (a' ++ '/' :: b)) = [] :: splitSeg (a' ++ '/' :: b)
            by simp [splitSeg, hc],
          show splitSeg (c :: a') = [] :: splitSeg a' by simp [splitSeg, hc],
          ih]
      simp
    · cases hh : splitSeg a' with
      | nil => exact absurd hh (splitSeg_ne_nil a')
      | cons s0 rest =>
        have ha : splitSeg (a' ++ '/' :: b) = (s0 :: rest) ++ splitSeg b := by
          rw [ih, hh]
        simp only [List.cons_append]
        rw [show splitSeg (c :: (a' ++ '/' :: b)) = (c :: s0) :: (rest ++ splitSeg b) by
              simp [splitSeg, hc, ha],
            show splitSeg (c :: a') = (c :: s0) :: rest by simp [splitSeg, hc, hh]]
        simp

theorem splitSeg_of_noslash (s : GoStr) (h : '/' ∉ s) : splitSeg s = [s] := by
  induction s with
  | nil => simp [splitSeg]
  | cons c t ih =>
    have hc : c ≠ '/' := fun he => h (he ▸ List.mem_cons_self c t)
    have ht : '/' ∉ t := fun hm => h (List.mem_cons_of_mem c hm)
    simp [splitSeg, hc, ih ht]

theorem splitSeg_joinSeg (L : List GoStr) (h : L ≠ [])
    (hs : ∀ s ∈ L, '/' ∉ s) : splitSeg (joinSeg L) = L := by
  induction L with
  | nil => exact absurd rfl h
  | cons s t ih =>
    cases t with
    | nil =>
      simp [joinSeg, joinRest]
      exact splitSeg_of_noslash s (hs s (List.mem_cons_self s []))
    | cons s1 t1 =>
      have hjoin : joinSeg (s :: s1 :: t1) = s ++ '/' :: joinSeg (s1 :: t1) := by
        simp [joinSeg, joinRest]
      rw [hjoin, splitSeg_append,
          splitSeg_of_noslash s (hs s (List.mem_cons_self s _)),
          ih (by simp) (fun x hx => hs x (List.mem_cons_of_mem s hx))]
      simp

/-! ### The shape of cleaned paths -/

/-- A segment that can sit on the cleaning stack: non-empty, slash-free
and not ".". -/
def SegOK (s : GoStr) : Prop := s ≠ [] ∧ '/' ∉ s ∧ s ≠ ['.']

/-- Invariant of the cleaning stack (held top-first): every segment is
well-formed, and all ".." segments sit at the bottom. -/
def GoodStack (st : List GoStr) : Prop :=
  (∀ s ∈ st, SegOK s) ∧
  ∃ a b, st = a ++ b ∧ (∀ s ∈ a, s ≠ dd) ∧ (∀ s ∈ b, s = dd)

theorem goodStack_nil : GoodStack [] :=
  ⟨by simp, [], [], by simp, by simp, by simp⟩

theorem goodStack_dd_single : GoodStack [dd] := by
  refine ⟨?_, [], [dd], by simp, by simp, by simp⟩
  intro s hs
  simp at hs
  subst hs
  exact ⟨by simp [dd], by simp [dd], by simp [dd]⟩

theorem goodStack_step (rooted : Bool) (st : List GoStr) (seg : GoStr)
    (hst : GoodStack st) (hseg : '/' ∉ seg) :
    GoodStack (cleanFold rooted st seg) := by
  by_cases h1 : seg = [] ∨ seg = ['.']
  · simpa [cleanFold, h1] using hst
  · push_neg at h1
    by_cases hdd : seg = dd
    · subst hdd
      cases st with
      | nil =>
        simp only [cleanFold, if_neg (by simp [h1.1, h1.2] : ¬(dd = [] ∨ dd = ['.'])),
          if_pos rfl]
        cases rooted with
        | false => simpa using goodStack_dd_single
        | true => simpa using goodStack_nil
      | cons t rest =>
        obtain ⟨hok, a, b, hab, hand, hbd⟩ := hst
        simp only [cleanFold, if_neg (by simp [h1.1, h1.2] : ¬(dd = [] ∨ dd = ['.'])),
          if_pos rfl]
        by_cases htd : t = dd
        · simp only [if_pos htd]
          have ha0 : a = [] := by
            cases a with
            | nil => rfl
            | cons a0 a' =>
              rw [List.cons_append] at hab
              have : t = a0 := (List.cons.injEq _ _ _ _ ▸ hab).1
              exact absurd (this ▸ htd) (hand a0 (List.mem_cons_self a0 a'))
          subst ha0
          simp only [List.nil_append] at hab
          refine ⟨?_, [], dd :: t :: rest, by simp, by simp, ?_⟩
          · intro s hs
            rcases List.mem_cons.mp hs with rfl | hs'
            · exact ⟨by simp [dd], by simp [dd], by simp [dd]⟩
            · exact hok s hs'
          · intro s hs
            rcases List.mem_cons.mp hs with rfl | hs'
            · rfl
            · exact hbd s (hab ▸ hs')
        · simp only [if_neg htd]
          cases a with
          | nil =>
            simp only [List.nil_append] at hab
            exact absurd (hbd t (hab ▸ List.mem_cons_self t rest)) htd
          | cons a0 a' =>
            rw [List.cons_append] at hab
            have h2 := List.cons.injEq t rest a0 (a' ++ b) ▸ hab
            refine ⟨?_, a', b, h2.2, ?_, hbd⟩
            · intro s hs
              exact hok s (List.mem_cons_of_mem t (h2.2 ▸ hs))
            · intro s hs
              exact hand s (List.mem_cons_of_mem a0 hs)
    · obtain ⟨hok, a, b, hab, hand, hbd⟩ := hst
      simp only [cleanFold, if_neg (by simp [h1.1, h1.2] : ¬(seg = [] ∨ seg = ['.'])),
        if_neg hdd]
      refine ⟨?_, seg :: a, b, by rw [hab, List.cons_append], ?_, hbd⟩
      · intro s hs
        rcases List.mem_cons.mp hs with rfl | hs'
        · exact ⟨h1.1, hseg, h1.2⟩
        · exact hok s hs'
      · intro s hs
        rcases List.mem_cons.mp hs with rfl | hs'
        · exact hdd
        · exact hand s hs'

theorem goodStack_foldl (rooted : Bool) (segs : List GoStr) (st : List GoStr)
    (hst : GoodStack st) (hsegs : ∀ s ∈ segs, '/' ∉ s) :
    GoodStack (segs.foldl (cleanFold rooted) st) := by
  induction segs generalizing st with
  | nil => simpa using hst
  | cons s t ih =>
    simp only [List.foldl_cons]
    exact ih (cleanFold rooted st s)
      (goodStack_step rooted st s hst (hsegs s (List.mem_cons_self s t)))
      (fun x hx => hsegs x (List.mem_cons_of_mem s hx))

theorem goodStack_cleanStackOf (p : GoStr) : GoodStack (cleanStackOf p) :=
  goodStack_foldl _ (splitSeg p) [] goodStack_nil (splitSeg_noslash p)

theorem joinSeg_cons (s : GoStr) (t : List GoStr) :
    joinSeg (s :: t) = s ++ joinRest t := rfl

theorem joinSeg_reverse_ne_nil (p : GoStr) (hst : cleanStackOf p ≠ []) :
    joinSeg (cleanStackOf p).reverse ≠ [] := by
  obtain ⟨hok, -⟩ := goodStack_cleanStackOf p
  cases hrev : (cleanStackOf p).reverse with
  | nil => exact absurd (List.reverse_eq_nil_iff.mp hrev) hst
  | cons r0 rt =>
    have hr0 : r0 ∈ cleanStackOf p := by
      rw [← List.mem_reverse, hrev]
      exact List.mem_cons_self r0 rt
    obtain ⟨hr0ne, -, -⟩ := hok r0 hr0
    rw [joinSeg_cons]
    intro hcontra
    exact hr0ne (List.append_eq_nil.mp hcontra).1

/-- A cleaned relative path is either "." or the join of its final
cleaning stack, whose segments it splits back into. -/
theorem goClean_shape (p : GoStr) (h : p.headD ' ' ≠ '/') :
    goClean p = ['.'] ∨
    (cleanStackOf p ≠ [] ∧ goClean p = joinSeg (cleanStackOf p).reverse ∧
     splitSeg (goClean p) = (cleanStackOf p).reverse) := by
  by_cases hp : p = []
  · left
    unfold goClean
    rw [if_pos hp]
  · have hr : (p.headD ' ' == '/') = false := beq_eq_false_iff_ne.mpr h
    have hgc0 : goClean p = if joinSeg (cleanStackOf p).reverse = [] then ['.']
        else joinSeg (cleanStackOf p).reverse := by
      unfold goClean
      rw [if_neg hp, hr]
      simp
    obtain ⟨hok, -⟩ := goodStack_cleanStackOf p
    by_cases hst : cleanStackOf p = []
    · left
      rw [hgc0, hst]
      simp [joinSeg]
    · have hjr := joinSeg_reverse_ne_nil p hst
      have hgc : goClean p = joinSeg (cleanStackOf p).reverse := by
        rw [hgc0, if_neg hjr]
      right
      refine ⟨hst, hgc, ?_⟩
      rw [hgc]
      exact splitSeg_joinSeg _ (by simpa using hst)
        (fun s hs => (hok s (List.mem_reverse.mp hs)).2.1)

theorem goClean_ne_nil (p : GoStr) (h : p.headD ' ' ≠ '/') :
    goClean p ≠ [] := by
  rcases goClean_shape p h with hdot | ⟨hst, hgc, -⟩
  · simp [hdot]
  · rw [hgc]
    exact joinSeg_reverse_ne_nil p hst

theorem goodStack_dd_head (st : List GoStr) (hst : GoodStack st)
    (hdd : dd ∈ st.reverse) : ∃ rt, st.reverse = dd :: rt := by
  obtain ⟨-, a, b, hab, hand, hbd⟩ := hst
  rw [List.mem_reverse] at hdd
  have hddb : dd ∈ b := by
    rcases List.mem_append.mp (hab ▸ hdd) with hmem | hmem
    · exact absurd rfl (hand dd hmem)
    · exact hmem
  cases b with
  | nil => simp at hddb
  | cons b0 b' =>
    rw [hab, List.reverse_append]
    cases hrev : (b0 :: b').reverse with
    | nil => simp at hrev
    | cons r0 rt =>
      refine ⟨rt ++ a.reverse, ?_⟩
      have hr0 : r0 ∈ b0 :: b' := by
        rw [← List.mem_reverse, hrev]
        exact List.mem_cons_self r0 rt
      simp [hbd r0 hr0]

/-- A cleaned relative path with a ".." segment anywhere is rejected by
isHiddenPath (after cleaning, ".." segments can only sit at the front). -/
theorem hidden_of_dd_mem (p : GoStr) (h : p.headD ' ' ≠ '/')
    (hdd : dd ∈ splitSeg (goClean p)) : isHiddenPath (goClean p) = true := by
  rcases goClean_shape p h with hdot | ⟨hst, hgc, hsp⟩
  · rw [hdot] at hdd
    exact absurd hdd (by decide)
  · rw [hsp] at hdd
    obtain ⟨rt, hrev⟩ :=
      goodStack_dd_head (cleanStackOf p) (goodStack_cleanStackOf p) hdd
    rw [hgc, hrev, joinSeg_cons]
    simp [dd, isHiddenPath]

theorem hidden_of_escape (p : GoStr) (h : p.headD ' ' ≠ '/')
    (hesc : (splitSeg (goClean p)).headD [] = dd) :
    isHiddenPath (goClean p) = true := by
  apply hidden_of_dd_mem p h
  cases hsp : splitSeg (goClean p) with
  | nil => exact absurd hsp (splitSeg_ne_nil _)
  | cons s0 t =>
    rw [hsp] at hesc
    simp at hesc
    simp [hesc]

/-- A cleaned relative path that passes the hidden check is confined to
the server root. -/
theorem confined_goClean (p : GoStr) (h : p.headD ' ' ≠ '/')
    (hnh : isHiddenPath (goClean p) = false) :
    confinedToRoot (goClean p) := by
  have hdd : dd ∉ splitSeg (goClean p) := by
    intro hmem
    rw [hidden_of_dd_mem p h hmem] at hnh
    exact Bool.true_eq_false.mp hnh
  have hhead : (goClean p).headD ' ' ≠ '/' := by
    rcases goClean_shape p h with hdot | ⟨hst, hgc, -⟩
    · rw [hdot]
      decide
    · obtain ⟨hok, -⟩ := goodStack_cleanStackOf p
      rw [hgc]
      cases hrev : (cleanStackOf p).reverse with
      | nil => exact absurd (List.reverse_eq_nil_iff.mp hrev) hst
      | cons r0 rt =>
        rw [joinSeg_cons]
        obtain ⟨hne, hnos, -⟩ :=
          hok r0 (List.mem_reverse.mp (hrev ▸ List.mem_cons_self r0 rt))
        cases r0 with
        | nil => exact absurd rfl hne
        | cons c0 r0' =>
          simp only [List.cons_append, List.headD_cons]
          intro hc
          exact hnos (hc ▸ List.mem_cons_self c0 r0')
  exact ⟨hhead, hdd⟩

theorem confined_append (p q : GoStr) (hp : confinedToRoot p)
    (hpne : p ≠ []) (hq : '/' ∉ q) (hqd : q ≠ dd) :
    confinedToRoot (p ++ '/' :: q) := by
  obtain ⟨hphead, hpdd⟩ := hp
  constructor
  · cases p with
    | nil => exact absurd rfl hpne
    | cons p0 pt => exact hphead
  · rw [splitSeg_append, splitSeg_of_noslash q hq]
    intro hmem
    rcases List.mem_append.mp hmem with hmem' | hmem'
    · exact hpdd hmem'
    · simp at hmem'
      exact hqd hmem'.symm

/-! ### Inversion lemmas for the handler stages -/

theorem serveFile_snd (fs : FS) (req : Request) (path : GoStr) (st : FileStat) :
    (serveFile fs req path st).2 = [path] := by
  unfold serveFile
  split_ifs <;> rfl

theorem serveFile_not_listing (fs : FS) (req : Request) (path : GoStr)
    (st : FileStat) (pp : GoStr) (ff : List DirEnt) :
    (serveFile fs req path st).1 ≠ .listingPage pp ff := by
  unfold serveFile
  split_ifs <;> simp

theorem serveFile_not_moved (fs : FS) (req : Request) (path : GoStr)
    (st : FileStat) (loc : GoStr) :
    (serveFile fs req path st).1 ≠ .movedPermanently loc := by
  unfold serveFile
  split_ifs <;> simp

theorem serveFile_304_iff (fs : FS) (req : Request) (path : GoStr) (st : FileStat) :
    respIs304 (serveFile fs req path st).1 = true ↔
    (fs.openOK path = true ∧ imsMatch req st = true) := by
  unfold serveFile
  split_ifs with h1 h2 h3
  · simp [respIs304, h1]
  · simp at h1
    simp [respIs304, h1, h2]
  · simp [respIs304, h2]
  · simp [respIs304, h2]

theorem serveFile_served_inv (fs : FS) (req : Request) (path : GoStr)
    (st : FileStat) (q m : GoStr) (lm : Int) (gz ho : Bool)
    (h : (serveFile fs req path st).1 = .served q m lm gz ho) :
    q = path ∧
    m = (lookupTable (goExt path) mimes).getD "application/octet-stream".toList ∧
    lm = truncSec st.modTimeNs ∧
    (gz = true → (1024 < st.size ∧
      hasSub "gzip".toList req.acceptEncoding = true ∧
      stringInSlice (goExt path) compressExts = true)) := by
  unfold serveFile at h
  split_ifs at h with h1 h2 h3
  · simp only [Response.served.injEq] at h
    obtain ⟨hq, hm, hlm, hgz, -⟩ := h
    subst hq
    subst hm
    subst hlm
    refine ⟨rfl, rfl, rfl, ?_⟩
    simp [← hgz]
  · simp only [Response.served.injEq] at h
    obtain ⟨hq, hm, hlm, hgz, -⟩ := h
    subst hq
    subst hm
    subst hlm
    refine ⟨rfl, rfl, rfl, ?_⟩
    intro hgzt
    rw [← hgz] at hgzt
    simp only [Bool.and_eq_true, decide_eq_true_eq] at hgzt
    exact ⟨hgzt.1.1.1, hgzt.1.1.2, hgzt.2⟩

theorem serveFile_full (fs : FS) (req : Request) (path : GoStr) (st : FileStat)
    (hopen : fs.openOK path = true) (hims : imsMatch req st = false)
    (hmethod : req.method ≠ "HEAD".toList) :
    (serveFile fs req path st).1 =
      .served path
        ((lookupTable (goExt path) mimes).getD "application/octet-stream".toList)
        (truncSec st.modTimeNs)
        (decide (1024 < st.size) && hasSub "gzip".toList req.acceptEncoding
          && !(goExt path == []) && stringInSlice (goExt path) compressExts)
        false := by
  unfold serveFile
  rw [if_neg (by simp [hopen]), if_neg (by simp [hims]), if_neg hmethod]

theorem showListing_snd (fs : FS) (path : GoStr) :
    (showListing fs path).2 = [path] := by
  unfold showListing
  cases h : fs.readDir path with
  | none => rfl
  | some files => split_ifs <;> rfl

theorem showListing_shape (fs : FS) (path : GoStr) :
    (showListing fs path).1 = .notFound ∨ (showListing fs path).1 = .panicked ∨
    ∃ files, fs.readDir path = some files ∧
      (showListing fs path).1 = .listingPage path files := by
  unfold showListing
  cases h : fs.readDir path with
  | none => simp
  | some files =>
    split_ifs with he
    · simp
    · right
      right
      exact ⟨files, rfl, rfl⟩

theorem probeIndex_acc (fs : FS) (path : GoStr) (L : List GoStr) :
    ∀ q ∈ (probeIndex fs path L).2, ∃ i ∈ L, q = path ++ '/' :: i := by
  induction L with
  | nil =>
    intro q hq
    simp [probeIndex] at hq
  | cons i rest ih =>
    intro q hq
    simp only [probeIndex] at hq
    cases hstat : fs.stat (path ++ '/' :: i) with
    | some st =>
      rw [hstat] at hq
      by_cases hdir : st.isDir = false
      · simp [hdir] at hq
        exact ⟨i, List.mem_cons_self i rest, hq⟩
      · simp [hdir] at hq
        rcases hq with rfl | hq'
        · exact ⟨i, List.mem_cons_self i rest, rfl⟩
        · obtain ⟨i', hi', hq''⟩ := ih q hq'
          exact ⟨i', List.mem_cons_of_mem i hi', hq''⟩
    | none =>
      rw [hstat] at hq
      simp at hq
      rcases hq with rfl | hq'
      · exact ⟨i, List.mem_cons_self i rest, rfl⟩
      · obtain ⟨i', hi', hq''⟩ := ih q hq'
        exact ⟨i', List.mem_cons_of_mem i hi', hq''⟩

theorem probeIndex_found (fs : FS) (path : GoStr) (L : List GoStr)
    (ip : GoStr) (ist : FileStat)
    (h : (probeIndex fs path L).1 = some (ip, ist)) :
    (∃ i ∈ L, ip = path ++ '/' :: i) ∧
    fs.stat ip = some ist ∧ ist.isDir = false := by
  induction L with
  | nil => simp [probeIndex] at h
  | cons i rest ih =>
    simp only [probeIndex] at h
    cases hstat : fs.stat (path ++ '/' :: i) with
    | some st =>
      rw [hstat] at h
      by_cases hdir : st.isDir = false
      · simp [hdir] at h
        obtain ⟨hip, hist⟩ := h
        subst hip
        subst hist
        exact ⟨⟨i, List.mem_cons_self i rest, rfl⟩, hstat, hdir⟩
      · simp [hdir] at h
        obtain ⟨⟨i', hi', hip⟩, hs, hd⟩ := ih h
        exact ⟨⟨i', List.mem_cons_of_mem i hi', hip⟩, hs, hd⟩
    | none =>
      rw [hstat] at h
      simp at h
      obtain ⟨⟨i', hi', hip⟩, hs, hd⟩ := ih h
      exact ⟨⟨i', List.mem_cons_of_mem i hi', hip⟩, hs, hd⟩

theorem dirStage_resp_cases (fs : FS) (ld : Bool) (req : Request) (path : GoStr) :
    (∃ loc, (dirStage fs ld req path).1 = .movedPermanently loc) ∨
    (dirStage fs ld req path).1 = .notFound ∨
    (∃ p files, (dirStage fs ld req path).1 = .listingPage p files) ∨
    (dirStage fs ld req path).1 = .panicked ∨
    (∃ pp sst, (probeIndex fs path indexFiles).1 = some (pp, sst) ∧
       (dirStage fs ld req path).1 = (serveFile fs req pp sst).1) := by
  unfold dirStage
  split_ifs with hred hld
  · exact Or.inl ⟨_, rfl⟩
  · cases hpi : probeIndex fs path indexFiles with
    | mk fst snd =>
      cases fst with
      | some pr =>
        cases pr with
        | mk ip ist =>
          right; right; right; right
          exact ⟨ip, ist, rfl, rfl⟩
      | none =>
        dsimp only
        rcases showListing_shape fs path with h | h | ⟨files, -, h⟩
        · right
          left
          exact h
        · right; right; right
          left
          exact h
        · right; right
          left
          exact ⟨path, files, h⟩
  · cases hpi : probeIndex fs path indexFiles with
    | mk fst snd =>
      cases fst with
      | some pr =>
        cases pr with
        | mk ip ist =>
          right; right; right; right
          exact ⟨ip, ist, rfl, rfl⟩
      | none =>
        right
        left
        rfl

theorem handler_resp_cases (fs : FS) (ld : Bool) (req : Request) :
    (requestHandler fs ld req).1 = .methodNotAllowed ∨
    (requestHandler fs ld req).1 = .notFound ∨
    (∃ loc, (requestHandler fs ld req).1 = .movedPermanently loc) ∨
    (∃ p files, (requestHandler fs ld req).1 = .listingPage p files) ∨
    (requestHandler fs ld req).1 = .panicked ∨
    (∃ pp sst, (requestHandler fs ld req).1 = (serveFile fs req pp sst).1) := by
  unfold requestHandler
  split_ifs with hm
  · exact Or.inl rfl
  · dsimp only
    split_ifs with hh
    · right; left; rfl
    · cases hst : fs.stat (goClean (req.urlPath.drop 1)) with
      | none => right; left; rfl
      | some st =>
        dsimp only
        by_cases hdir : st.isDir = true
        · rw [if_pos hdir]
          dsimp only
          rcases dirStage_resp_cases fs ld req (goClean (req.urlPath.drop 1)) with
            ⟨loc, h⟩ | h | ⟨p, files, h⟩ | h | ⟨pp, sst, -, h⟩
          · right; right
            left
            exact ⟨loc, h⟩
          · right
            left
            exact h
          · right; right; right
            left
            exact ⟨p, files, h⟩
          · right; right; right; right
            left
            exact h
          · right; right; right; right; right
            exact ⟨pp, sst, h⟩
        · rw [if_neg hdir]
          right; right; right; right; right
          exact ⟨goClean (req.urlPath.drop 1), st, rfl⟩

theorem dirStage_acc (fs : FS) (ld : Bool) (req : Request) (path : GoStr) :
    ∀ x ∈ (dirStage fs ld req path).2,
      x = path ∨ ∃ i ∈ indexFiles, x = path ++ '/' :: i := by
  unfold dirStage
  split_ifs with hred hld
  · intro x hx
    simp at hx
  · cases hpi : probeIndex fs path indexFiles with
    | mk fst snd =>
      cases fst with
      | some pr =>
        cases pr with
        | mk ip ist =>
          intro x hx
          dsimp only at hx
          rw [serveFile_snd] at hx
          rcases List.mem_append.mp hx with hx' | hx'
          · obtain ⟨i, hi, hq⟩ := probeIndex_acc fs path indexFiles x
              (by rw [hpi]; exact hx')
            exact Or.inr ⟨i, hi, hq⟩
          · simp at hx'
            obtain ⟨⟨i, hi, hipeq⟩, -, -⟩ :=
              probeIndex_found fs path indexFiles ip ist (by rw [hpi])
            exact Or.inr ⟨i, hi, hx' ▸ hipeq⟩
      | none =>
        intro x hx
        dsimp only at hx
        rw [showListing_snd] at hx
        rcases List.mem_append.mp hx with hx' | hx'
        · obtain ⟨i, hi, hq⟩ := probeIndex_acc fs path indexFiles x
            (by rw [hpi]; exact hx')
          exact Or.inr ⟨i, hi, hq⟩
        · simp at hx'
          exact Or.inl hx'
  · cases hpi : probeIndex fs path indexFiles with
    | mk fst snd =>
      cases fst with
      | some pr =>
        cases pr with
        | mk ip ist =>
          intro x hx
          dsimp only at hx
          rw [serveFile_snd] at hx
          rcases List.mem_append.mp hx with hx' | hx'
          · obtain ⟨i, hi, hq⟩ := probeIndex_acc fs path indexFiles x
              (by rw [hpi]; exact hx')
            exact Or.inr ⟨i, hi, hq⟩
          · simp at hx'
            obtain ⟨⟨i, hi, hipeq⟩, -, -⟩ :=
              probeIndex_found fs path indexFiles ip ist (by rw [hpi])
            exact Or.inr ⟨i, hi, hx' ▸ hipeq⟩
      | none =>
        intro x hx
        dsimp only at hx
        obtain ⟨i, hi, hq⟩ := probeIndex_acc fs path indexFiles x
          (by rw [hpi]; exact hx)
        exact Or.inr ⟨i, hi, hq⟩

theorem handler_acc (fs : FS) (ld : Bool) (req : Request) :
    ∀ x ∈ (requestHandler fs ld req).2,
      isHiddenPath (goClean (req.urlPath.drop 1)) = false ∧
      (x = goClean (req.urlPath.drop 1) ∨
       ∃ i ∈ indexFiles, x = goClean (req.urlPath.drop 1) ++ '/' :: i) := by
  unfold requestHandler
  split_ifs with hm
  · intro x hx
    simp at hx
  · dsimp only
    split_ifs with hh
    · intro x hx
      simp at hx
    · have hh' : isHiddenPath (goClean (req.urlPath.drop 1)) = false := by
        simpa using hh
      cases hst : fs.stat (goClean (req.urlPath.drop 1)) with
      | none =>
        intro x hx
        rw [List.mem_singleton] at hx
        exact ⟨hh', Or.inl hx⟩
      | some st =>
        dsimp only
        by_cases hdir : st.isDir = true
        · rw [if_pos hdir]
          intro x hx
          dsimp only at hx
          rcases List.mem_cons.mp hx with rfl | hx'
          · exact ⟨hh', Or.inl rfl⟩
          · exact ⟨hh', dirStage_acc fs ld req _ x hx'⟩
        · rw [if_neg hdir]
          intro x hx
          dsimp only at hx
          rw [serveFile_snd] at hx
          rcases List.mem_cons.mp hx with rfl | hx'
          · exact ⟨hh', Or.inl rfl⟩
          · rw [List.mem_singleton] at hx'
            exact ⟨hh', Or.inl hx'⟩

/-- The request resolves to serving the regular file `pf` with stat
`st`: either directly (a non-directory stat of the cleaned path), or
through the index-file probe of a directory requested with a trailing
separator (or the root). -/
def resolvesToFile (fs : FS) (req : Request) (pf : GoStr) (st : FileStat) : Prop :=
  isHiddenPath (goClean (req.urlPath.drop 1)) = false ∧
  ((fs.stat (goClean (req.urlPath.drop 1)) = some st ∧ st.isDir = false ∧
      pf = goClean (req.urlPath.drop 1)) ∨
   (∃ std, fs.stat (goClean (req.urlPath.drop 1)) = some std ∧ std.isDir = true ∧
      ¬(goClean (req.urlPath.drop 1) ≠ ['.'] ∧ req.urlPath.getLastD ' ' ≠ '/') ∧
      (probeIndex fs (goClean (req.urlPath.drop 1)) indexFiles).1 = some (pf, st)))

theorem handler_resolved (fs : FS) (ld : Bool) (req : Request)
    (pf : GoStr) (st : FileStat)
    (hm : req.method = "GET".toList ∨ req.method = "HEAD".toList)
    (hres : resolvesToFile fs req pf st) :
    (requestHandler fs ld req).1 = (serveFile fs req pf st).1 := by
  obtain ⟨hhid, hcase⟩ := hres
  have hmne : ¬(req.method ≠ "GET".toList ∧ req.method ≠ "HEAD".toList) := by
    rcases hm with h | h <;> simp [h]
  have hne : ¬(isHiddenPath (goClean (req.urlPath.drop 1)) = true) := by
    simp only [hhid]
    exact Bool.false_ne_true
  unfold requestHandler
  rw [if_neg hmne]
  dsimp only
  rw [if_neg hne]
  rcases hcase with ⟨hstat, hdir, rfl⟩ | ⟨std, hstat, hdir, hslash, hprobe⟩
  · rw [hstat]
    dsimp only
    rw [if_neg (by simp [hdir])]
  · rw [hstat]
    dsimp only
    rw [if_pos hdir]
    dsimp only
    unfold dirStage
    rw [if_neg hslash]
    cases hpi : probeIndex fs (goClean (req.urlPath.drop 1)) indexFiles with
    | mk fst snd =>
      rw [hpi] at hprobe
      dsimp only at hprobe
      subst hprobe
      rfl

theorem stringInSlice_mem (a : GoStr) (l : List GoStr)
    (h : stringInSlice a l = true) : a ∈ l := by
  induction l with
  | nil => simp [stringInSlice] at h
  | cons b rest ih =>
    unfold stringInSlice at h
    split_ifs at h with hb
    · exact hb ▸ List.mem_cons_self b rest
    · exact List.mem_cons_of_mem b (ih h)

theorem lookupTable_mem (key : GoStr) (l : List (GoStr × GoStr)) (v : GoStr)
    (h : lookupTable key l = some v) : key ∈ l.map Prod.fst := by
  induction l with
  | nil => simp [lookupTable] at h
  | cons kv rest ih =>
    cases kv with
    | mk k w =>
      unfold lookupTable at h
      split_ifs at h with hk
      · simp [← hk]
      · exact List.mem_cons_of_mem k (ih h)

/-- True when the string contains an uppercase ASCII letter. -/
def hasUpperChar (s : GoStr) : Bool :=
  s.any (fun c => 'A' ≤ c && c ≤ 'Z')

theorem mimes_no_upper : ∀ k ∈ mimes.map Prod.fst, hasUpperChar k = false := by
  decide

theorem compressExts_no_upper : ∀ k ∈ compressExts, hasUpperChar k = false := by
  decide

theorem compressExts_ne_nil : ∀ k ∈ compressExts, k ≠ [] := by
  decide

theorem handler_served_from (fs : FS) (ld : Bool) (req : Request)
    (q m : GoStr) (lm : Int) (gz ho : Bool)
    (h : (requestHandler fs ld req).1 = .served q m lm gz ho) :
    ∃ pp sst, (serveFile fs req pp sst).1 = .served q m lm gz ho := by
  rcases handler_resp_cases fs ld req with
    h1 | h1 | ⟨loc, h1⟩ | ⟨p, files, h1⟩ | h1 | ⟨pp, sst, h1⟩
  · rw [h1] at h
    exact Response.noConfusion h
  · rw [h1] at h
    exact Response.noConfusion h
  · rw [h1] at h
    exact Response.noConfusion h
  · rw [h1] at h
    exact Response.noConfusion h
  · rw [h1] at h
    exact Response.noConfusion h
  · rw [h1] at h
    exact ⟨pp, sst, h⟩

theorem handler_not_304 (fs : FS) (ld : Bool) (req : Request)
    (hims : req.ifModifiedSince = none) :
    respIs304 (requestHandler fs ld req).1 = false := by
  rcases handler_resp_cases fs ld req with
    h1 | h1 | ⟨loc, h1⟩ | ⟨p, files, h1⟩ | h1 | ⟨pp, sst, h1⟩ <;> rw [h1]
  · rfl
  · rfl
  · rfl
  · rfl
  · rfl
  · cases hb : respIs304 (serveFile fs req pp sst).1 with
    | false => rfl
    | true =>
      obtain ⟨-, hmatch⟩ := (serveFile_304_iff fs req pp sst).mp hb
      unfold imsMatch at hmatch
      rw [hims] at hmatch
      exact absurd hmatch (by simp)

theorem showListing_not_moved (fs : FS) (path : GoStr) (loc : GoStr) :
    (showListing fs path).1 ≠ .movedPermanently loc := by
  rcases showListing_shape fs path with h | h | ⟨files, -, h⟩ <;> rw [h] <;>
    exact fun hc => Response.noConfusion hc

theorem showListing_not_served (fs : FS) (path : GoStr) (q m : GoStr)
    (lm : Int) (gz ho : Bool) :
    (showListing fs path).1 ≠ .served q m lm gz ho := by
  rcases showListing_shape fs path with h | h | ⟨files, -, h⟩ <;> rw [h] <;>
    exact fun hc => Response.noConfusion hc

theorem probeIndex_first (fs : FS) (path : GoStr) (s1 : FileStat)
    (h1 : fs.stat (path ++ '/' :: "index.html".toList) = some s1)
    (hd1 : s1.isDir = false) :
    (probeIndex fs path indexFiles).1 =
      some (path ++ '/' :: "index.html".toList, s1) := by
  unfold indexFiles probeIndex
  dsimp only
  rw [h1]
  dsimp only
  rw [if_pos hd1]

theorem probeIndex_second (fs : FS) (path : GoStr) (s2 : FileStat)
    (h1 : ∀ s1, fs.stat (path ++ '/' :: "index.html".toList) = some s1 →
      s1.isDir = true)
    (h2 : fs.stat (path ++ '/' :: "index.xhtml".toList) = some s2)
    (hd2 : s2.isDir = false) :
    (probeIndex fs path indexFiles).1 =
      some (path ++ '/' :: "index.xhtml".toList, s2) := by
  unfold indexFiles probeIndex
  dsimp only
  cases hs : fs.stat (path ++ '/' :: "index.html".toList) with
  | none =>
    dsimp only
    unfold probeIndex
    dsimp only
    rw [h2]
    dsimp only
    rw [if_pos hd2]
  | some s1 =>
    dsimp only
    rw [if_neg (by simp [h1 s1 hs])]
    dsimp only
    unfold probeIndex
    dsimp only
    rw [h2]
    dsimp only
    rw [if_pos hd2]

theorem probeIndex_neither (fs : FS) (path : GoStr)
    (h1 : ∀ s1, fs.stat (path ++ '/' :: "index.html".toList) = some s1 →
      s1.isDir = true)
    (h2 : ∀ s2, fs.stat (path ++ '/' :: "index.xhtml".toList) = some s2 →
      s2.isDir = true) :
    (probeIndex fs path indexFiles).1 = none := by
  unfold indexFiles probeIndex
  dsimp only
  cases hs : fs.stat (path ++ '/' :: "index.html".toList) with
  | none =>
    dsimp only
    unfold probeIndex
    dsimp only
    cases hs2 : fs.stat (path ++ '/' :: "index.xhtml".toList) with
    | none => rfl
    | some s2 =>
      dsimp only
      rw [if_neg (by simp [h2 s2 hs2])]
      rfl
  | some s1 =>
    dsimp only
    rw [if_neg (by simp [h1 s1 hs])]
    dsimp only
    unfold probeIndex
    dsimp only
    cases hs2 : fs.stat (path ++ '/' :: "index.xhtml".toList) with
    | none => rfl
    | some s2 =>
      dsimp only
      rw [if_neg (by simp [h2 s2 hs2])]
      rfl

/-! ### The claims -/

/-- C3: for every served file and every syntactically valid
If-Modified-Since header, the response is 304 (no body) exactly when
the file's modification time truncated to whole seconds is earlier
than or equal to the parsed timestamp; if the header is absent or
fails to parse, the file is served fresh (never 304). -/
theorem claim3_conditional_304 :
    (∀ (fs : FS) (ld : Bool) (req : Request) (pf : GoStr) (st : FileStat)
       (since : Int),
      (req.method = "GET".toList ∨ req.method = "HEAD".toList) →
      resolvesToFile fs req pf st →
      fs.openOK pf = true →
      req.ifModifiedSince = some since →
      (respIs304 (requestHandler fs ld req).1 = true ↔
        truncSec st.modTimeNs ≤ since)) ∧
    (∀ (fs : FS) (ld : Bool) (req : Request),
      req.ifModifiedSince = none →
      respIs304 (requestHandler fs ld req).1 = false) := by
  constructor
  · intro fs ld req pf st since hm hres hopen hsince
    rw [handler_resolved fs ld req pf st hm hres]
    rw [serveFile_304_iff]
    unfold imsMatch
    rw [hsince]
    simp [hopen]
  · intro fs ld req h
    exact handler_not_304 fs ld req h

/-- C9: a served file whose derived extension is not in the MIME table
gets Content-Type application/octet-stream. -/
theorem claim9_unknown_mime :
    ∀ (fs : FS) (ld : Bool) (req : Request) (q m : GoStr) (lm : Int)
      (gz ho : Bool),
      (requestHandler fs ld req).1 = .served q m lm gz ho →
      lookupTable (goExt q) mimes = none →
      m = "application/octet-stream".toList := by
  intro fs ld req q m lm gz ho h hlook
  obtain ⟨pp, sst, hs⟩ := handler_served_from fs ld req q m lm gz ho h
  obtain ⟨hq, hm, -, -⟩ := serveFile_served_inv fs req pp sst q m lm gz ho hs
  subst hq
  rw [hlook] at hm
  exact hm

/-- C10: extension matching is exact and case-sensitive, so an
extension containing an uppercase letter is not in the MIME table
(Content-Type falls back to application/octet-stream) and is not
compression-eligible (gzip is never applied). -/
theorem claim10_case_sensitive :
    ∀ (fs : FS) (ld : Bool) (req : Request) (q m : GoStr) (lm : Int)
      (gz ho : Bool),
      (requestHandler fs ld req).1 = .served q m lm gz ho →
      hasUpperChar (goExt q) = true →
      m = "application/octet-stream".toList ∧ gz = false := by
  intro fs ld req q m lm gz ho h hup
  obtain ⟨pp, sst, hs⟩ := handler_served_from fs ld req q m lm gz ho h
  obtain ⟨hq, hm, -, hgz⟩ := serveFile_served_inv fs req pp sst q m lm gz ho hs
  subst hq
  constructor
  · cases hlk : lookupTable (goExt q) mimes with
    | none =>
      rw [hlk] at hm
      exact hm
    | some v =>
      have hmem := lookupTable_mem (goExt q) mimes v hlk
      rw [mimes_no_upper (goExt q) hmem] at hup
      exact absurd hup (by simp)
  · cases hgzb : gz with
    | false => rfl
    | true =>
      obtain ⟨-, -, hsl⟩ := hgz hgzb
      have hmem := stringInSlice_mem (goExt q) compressExts hsl
      rw [compressExts_no_upper (goExt q) hmem] at hup
      exact absurd hup (by simp)

/-- C4: for a GET request that serves a file body, gzip is applied
(Content-Encoding set) exactly when the size exceeds 1024 bytes, the
extension is in compressExts and Accept-Encoding contains "gzip". -/
theorem claim4_gzip_iff :
    ∀ (fs : FS) (ld : Bool) (req : Request) (pf : GoStr) (st : FileStat),
      req.method = "GET".toList →
      resolvesToFile fs req pf st →
      fs.openOK pf = true →
      imsMatch req st = false →
      (respGz (requestHandler fs ld req).1 = some true ↔
        (1024 < st.size ∧ stringInSlice (goExt pf) compressExts = true ∧
         hasSub "gzip".toList req.acceptEncoding = true)) := by
  intro fs ld req pf st hm hres hopen hims
  rw [handler_resolved fs ld req pf st (Or.inl hm) hres]
  rw [serveFile_full fs req pf st hopen hims (by rw [hm]; decide)]
  unfold respGz
  dsimp only
  rw [Option.some_inj]
  constructor
  · intro h
    simp only [Bool.and_eq_true, decide_eq_true_eq] at h
    exact ⟨h.1.1.1, h.2, h.1.1.2⟩
  · intro ⟨h1, h2, h3⟩
    have hne : (goExt pf == []) = false := by
      cases hx : goExt pf with
      | nil =>
        rw [hx] at h2
        exact absurd h2 (by decide)
      | cons c t => simp
    simp only [Bool.and_eq_true, decide_eq_true_eq]
    exact ⟨⟨⟨h1, h3⟩, by simp [hne]⟩, h2⟩

/-- C5: an existing directory whose normalized path is not the root,
requested without a trailing separator, is answered 301 with Location
equal to the (root-anchored) directory path plus a trailing separator;
the root itself is never redirected. -/
theorem claim5_redirect :
    (∀ (fs : FS) (ld : Bool) (req : Request) (st : FileStat),
      (req.method = "GET".toList ∨ req.method = "HEAD".toList) →
      isHiddenPath (goClean (req.urlPath.drop 1)) = false →
      fs.stat (goClean (req.urlPath.drop 1)) = some st →
      st.isDir = true →
      goClean (req.urlPath.drop 1) ≠ ['.'] →
      req.urlPath.getLastD ' ' ≠ '/' →
      (requestHandler fs ld req).1 =
        .movedPermanently ('/' :: goClean (req.urlPath.drop 1) ++ ['/'])) ∧
    (∀ (fs : FS) (ld : Bool) (req : Request) (loc : GoStr),
      goClean (req.urlPath.drop 1) = ['.'] →
      (requestHandler fs ld req).1 ≠ .movedPermanently loc) := by
  constructor
  · intro fs ld req st hm hhid hstat hdir hroot hslash
    have hmne : ¬(req.method ≠ "GET".toList ∧ req.method ≠ "HEAD".toList) := by
      rcases hm with h | h <;> simp [h]
    have hne : ¬(isHiddenPath (goClean (req.urlPath.drop 1)) = true) := by
      simp only [hhid]
      exact Bool.false_ne_true
    unfold requestHandler
    rw [if_neg hmne]
    dsimp only
    rw [if_neg hne, hstat]
    dsimp only
    rw [if_pos hdir]
    dsimp only
    unfold dirStage
    rw [if_pos ⟨hroot, hslash⟩]
  · intro fs ld req loc hroot
    unfold requestHandler
    split_ifs with hm
    · exact fun hc => Response.noConfusion hc
    · dsimp only
      split_ifs with hh
      · exact fun hc => Response.noConfusion hc
      · cases hst : fs.stat (goClean (req.urlPath.drop 1)) with
        | none => exact fun hc => Response.noConfusion hc
        | some st =>
          dsimp only
          by_cases hdir : st.isDir = true
          · rw [if_pos hdir]
            dsimp only
            unfold dirStage
            rw [if_neg (fun hand => hand.1 hroot)]
            cases hpi : probeIndex fs (goClean (req.urlPath.drop 1)) indexFiles with
            | mk fst snd =>
              cases fst with
              | some pr =>
                cases pr with
                | mk ip ist => exact serveFile_not_moved fs req ip ist loc
              | none =>
                dsimp only
                split_ifs with hld
                · exact showListing_not_moved fs (goClean (req.urlPath.drop 1)) loc
                · exact fun hc => Response.noConfusion hc
          · rw [if_neg hdir]
            exact serveFile_not_moved fs req (goClean (req.urlPath.drop 1)) st loc

/-- C6: for a directory request with a trailing separator (or the
root), the index candidates are probed in order index.html then
index.xhtml; the first existing non-directory candidate is served in
place of the directory (never a listing), and only when neither
qualifies is a listing rendered (when enabled) or 404 returned. -/
theorem claim6_index_probe :
    ∀ (fs : FS) (ld : Bool) (req : Request) (st : FileStat),
      (req.method = "GET".toList ∨ req.method = "HEAD".toList) →
      isHiddenPath (goClean (req.urlPath.drop 1)) = false →
      fs.stat (goClean (req.urlPath.drop 1)) = some st →
      st.isDir = true →
      ¬(goClean (req.urlPath.drop 1) ≠ ['.'] ∧
        req.urlPath.getLastD ' ' ≠ '/') →
      ((∀ s1, fs.stat (goClean (req.urlPath.drop 1) ++ '/' ::
            "index.html".toList) = some s1 → s1.isDir = false →
          (requestHandler fs ld req).1 =
            (serveFile fs req (goClean (req.urlPath.drop 1) ++ '/' ::
              "index.html".toList) s1).1 ∧
          ∀ pp ffs, (requestHandler fs ld req).1 ≠ .listingPage pp ffs) ∧
       ((∀ s1, fs.stat (goClean (req.urlPath.drop 1) ++ '/' ::
            "index.html".toList) = some s1 → s1.isDir = true) →
        ∀ s2, fs.stat (goClean (req.urlPath.drop 1) ++ '/' ::
            "index.xhtml".toList) = some s2 → s2.isDir = false →
          (requestHandler fs ld req).1 =
            (serveFile fs req (goClean (req.urlPath.drop 1) ++ '/' ::
              "index.xhtml".toList) s2).1) ∧
       ((∀ s1, fs.stat (goClean (req.urlPath.drop 1) ++ '/' ::
            "index.html".toList) = some s1 → s1.isDir = true) →
        (∀ s2, fs.stat (goClean (req.urlPath.drop 1) ++ '/' ::
            "index.xhtml".toList) = some s2 → s2.isDir = true) →
        (ld = true →
          (requestHandler fs ld req).1 =
            (showListing fs (goClean (req.urlPath.drop 1))).1) ∧
        (ld = false → (requestHandler fs ld req).1 = .notFound))) := by
  intro fs ld req st hm hhid hstat hdir hslash
  refine ⟨?_, ?_, ?_⟩
  · intro s1 hs1 hd1
    have hres : resolvesToFile fs req
        (goClean (req.urlPath.drop 1) ++ '/' :: "index.html".toList) s1 :=
      ⟨hhid, Or.inr ⟨st, hstat, hdir, hslash,
        probeIndex_first fs (goClean (req.urlPath.drop 1)) s1 hs1 hd1⟩⟩
    have heq := handler_resolved fs ld req _ s1 hm hres
    refine ⟨heq, ?_⟩
    intro pp ffs
    rw [heq]
    exact serveFile_not_listing fs req _ s1 pp ffs
  · intro h1 s2 hs2 hd2
    have hres : resolvesToFile fs req
        (goClean (req.urlPath.drop 1) ++ '/' :: "index.xhtml".toList) s2 :=
      ⟨hhid, Or.inr ⟨st, hstat, hdir, hslash,
        probeIndex_second fs (goClean (req.urlPath.drop 1)) s2 h1 hs2 hd2⟩⟩
    exact handler_resolved fs ld req _ s2 hm hres
  · intro h1 h2
    have hmne : ¬(req.method ≠ "GET".toList ∧ req.method ≠ "HEAD".toList) := by
      rcases hm with h | h <;> simp [h]
    have hne : ¬(isHiddenPath (goClean (req.urlPath.drop 1)) = true) := by
      simp only [hhid]
      exact Bool.false_ne_true
    have hpn := probeIndex_neither fs (goClean (req.urlPath.drop 1)) h1 h2
    have hred : (requestHandler fs ld req).1 =
        (if ld then (showListing fs (goClean (req.urlPath.drop 1))).1
         else Response.notFound) := by
      unfold requestHandler
      rw [if_neg hmne]
      dsimp only
      rw [if_neg hne, hstat]
      dsimp only
      rw [if_pos hdir]
      dsimp only
      unfold dirStage
      rw [if_neg hslash]
      cases hpi : probeIndex fs (goClean (req.urlPath.drop 1)) indexFiles with
      | mk fst snd =>
        rw [hpi] at hpn
        dsimp only at hpn
        subst hpn
        dsimp only
        split_ifs with hld
        · rfl
        · rfl
    constructor
    · intro hld
      rw [hred, if_pos hld]
    · intro hld
      rw [hred, if_neg (by rw [hld]; exact Bool.false_ne_true)]

/-- C8: a rendered directory listing excludes every entry whose name
starts with a dot and includes every other entry exactly once. -/
theorem claim8_listing_filter :
    ∀ (fs : FS) (ld : Bool) (req : Request) (p : GoStr)
      (files : List DirEnt),
      (requestHandler fs ld req).1 = .listingPage p files →
      files.Nodup →
      (∀ f ∈ files, f.name.headD ' ' = '.' → f ∉ renderedEntries files) ∧
      (∀ f ∈ files, f.name.headD ' ' ≠ '.' →
        (renderedEntries files).count f = 1) := by
  intro fs ld req p files hresp hnd
  constructor
  · intro f hf hdot hmem
    unfold renderedEntries at hmem
    rw [List.mem_filter] at hmem
    rw [hdot] at hmem
    exact absurd hmem.2 (by simp)
  · intro f hf hdot
    unfold renderedEntries
    rw [List.count_filter
      (by simp only [Bool.not_eq_true', beq_eq_false_iff_ne]; exact hdot)]
    exact List.count_eq_one_of_mem hnd hf

/-! ### Concrete scenarios -/

/-- Directory entries of "pub" in the demonstration filesystem. -/
def pubEntries : List DirEnt := [
  { name := ".hidden".toList, isDir := false, size := 5, modTimeNs := 0 },
  { name := "x.txt".toList, isDir := false, size := 7, modTimeNs := 0 }]

/-- A concrete filesystem exercising all branches of the handler:
regular files, directories with and without index files, a dotfile
that exists on disk, an absolute path outside the root, and a
directory whose listing render fails. -/
def fsDemo : FS := {
  stat := fun p =>
    if p = "a/b.txt".toList then
      some { isDir := false, size := 2000, modTimeNs := 5000000005 }
    else if p = "a".toList then
      some { isDir := true, size := 0, modTimeNs := 0 }
    else if p = "docs".toList then
      some { isDir := true, size := 0, modTimeNs := 0 }
    else if p = "docs/index.html".toList then
      some { isDir := false, size := 100, modTimeNs := 0 }
    else if p = "pub".toList then
      some { isDir := true, size := 0, modTimeNs := 0 }
    else if p = "boom".toList then
      some { isDir := true, size := 0, modTimeNs := 0 }
    else if p = "STYLE.CSS".toList then
      some { isDir := false, size := 2000, modTimeNs := 0 }
    else if p = "data.bin".toList then
      some { isDir := false, size := 50, modTimeNs := 0 }
    else if p = "secret".toList then
      some { isDir := true, size := 0, modTimeNs := 0 }
    else if p = "secret/.env".toList then
      some { isDir := false, size := 1, modTimeNs := 0 }
    else if p = "/etc/passwd".toList then
      some { isDir := false, size := 9, modTimeNs := 0 }
    else none,
  readDir := fun p =>
    if p = "pub".toList then some pubEntries
    else if p = "boom".toList then some []
    else none,
  openOK := fun _ => true,
  execError := fun p => decide (p = "boom".toList) }

def reqDotSeg : Request :=
  { method := "GET".toList, urlPath := "/a/./b.txt".toList,
    ifModifiedSince := none, acceptEncoding := [] }

def reqEnv : Request :=
  { method := "GET".toList, urlPath := "/secret/.env".toList,
    ifModifiedSince := none, acceptEncoding := [] }

def reqSlashSlash : Request :=
  { method := "GET".toList, urlPath := "//etc/passwd".toList,
    ifModifiedSince := none, acceptEncoding := [] }

def reqEscape : Request :=
  { method := "GET".toList, urlPath := "/../../etc/passwd".toList,
    ifModifiedSince := none, acceptEncoding := [] }

def reqDocsSlash : Request :=
  { method := "GET".toList, urlPath := "/docs/".toList,
    ifModifiedSince := none, acceptEncoding := [] }

def reqDocsNoSlash : Request :=
  { method := "GET".toList, urlPath := "/docs".toList,
    ifModifiedSince := none, acceptEncoding := [] }

def reqRoot : Request :=
  { method := "GET".toList, urlPath := "/".toList,
    ifModifiedSince := none, acceptEncoding := [] }

def reqPub : Request :=
  { method := "GET".toList, urlPath := "/pub/".toList,
    ifModifiedSince := none, acceptEncoding := [] }

def reqBoom : Request :=
  { method := "GET".toList, urlPath := "/boom/".toList,
    ifModifiedSince := none, acceptEncoding := [] }

def reqIms : Request :=
  { method := "GET".toList, urlPath := "/a/b.txt".toList,
    ifModifiedSince := some 5000000000, acceptEncoding := [] }

def reqNoIms : Request :=
  { method := "GET".toList, urlPath := "/a/b.txt".toList,
    ifModifiedSince := none, acceptEncoding := [] }

def reqGzip : Request :=
  { method := "GET".toList, urlPath := "/a/b.txt".toList,
    ifModifiedSince := none, acceptEncoding := "gzip".toList }

def reqBin : Request :=
  { method := "GET".toList, urlPath := "/data.bin".toList,
    ifModifiedSince := none, acceptEncoding := [] }

def reqStyle : Request :=
  { method := "GET".toList, urlPath := "/STYLE.CSS".toList,
    ifModifiedSince := none, acceptEncoding := "gzip".toList }

/-- C1 (counterexample): the request path "/a/./b.txt" contains the
segment "." (which starts with a dot), yet the handler serves the file
a/b.txt (status 200), because the hidden check runs on the cleaned
path: the claim quantified over request paths is false. -/
theorem claim1_counterexample :
    (∃ seg ∈ splitSeg reqDotSeg.urlPath, seg.headD ' ' = '.') ∧
    (requestHandler fsDemo true reqDotSeg).1 =
      .served "a/b.txt".toList "text/plain".toList 5000000000 false false ∧
    (requestHandler fsDemo true reqDotSeg).1 ≠ .notFound := by
  decide

/-- C1 (amended): for every GET or HEAD request whose CLEANED path is
not the root "." and contains a segment starting with a dot, the
response is 404 and no filesystem path is touched, regardless of the
filesystem and of the listing flag. -/
theorem claim1_amended_hidden_404 :
    ∀ (fs : FS) (ld : Bool) (req : Request) (seg : GoStr),
      (req.method = "GET".toList ∨ req.method = "HEAD".toList) →
      goClean (req.urlPath.drop 1) ≠ ['.'] →
      seg ∈ splitSeg (goClean (req.urlPath.drop 1)) →
      seg.headD ' ' = '.' →
      (requestHandler fs ld req).1 = .notFound ∧
      (requestHandler fs ld req).2 = [] := by
  intro fs ld req seg hm hroot hmem hdot
  have hhid := segdot_hidden (goClean (req.urlPath.drop 1)) seg hroot hmem hdot
  have hmne : ¬(req.method ≠ "GET".toList ∧ req.method ≠ "HEAD".toList) := by
    rcases hm with h | h <;> simp [h]
  constructor <;>
  · unfold requestHandler
    rw [if_neg hmne]
    dsimp only
    rw [if_pos hhid]

/-- C1 (witness): "/secret/.env" is rejected with 404 and no
filesystem access even though secret/.env exists in fsDemo and the
listing flag is on. -/
theorem claim1_witness :
    (requestHandler fsDemo true reqEnv).1 = .notFound ∧
    (requestHandler fsDemo true reqEnv).2 = [] :=
  claim1_amended_hidden_404 fsDemo true reqEnv ".env".toList
    (Or.inl rfl) (by decide) (by decide) (by decide)

/-- C2 (counterexample): for the raw URL path "//etc/passwd" (legal in
HTTP, two leading separators) the handler stats and serves the
absolute path "/etc/passwd", which is not confined to the server root:
the claim quantified over all raw URL paths is false. -/
theorem claim2_counterexample :
    (∃ x ∈ (requestHandler fsDemo false reqSlashSlash).2,
      ¬ confinedToRoot x) ∧
    (requestHandler fsDemo false reqSlashSlash).1 ≠ .notFound := by
  decide

/-- C2 (amended): for every raw URL path with a single leading
separator (which is what the net/http mux delivers), every filesystem
path the handler passes to stat/open/readdir is confined to the server
root, and a GET or HEAD request whose cleaned path begins with a ".."
segment is answered 404 with no filesystem access at all. -/
theorem claim2_amended_confinement :
    ∀ (fs : FS) (ld : Bool) (req : Request),
      (req.urlPath.drop 1).headD ' ' ≠ '/' →
      ((∀ x ∈ (requestHandler fs ld req).2, confinedToRoot x) ∧
       ((splitSeg (goClean (req.urlPath.drop 1))).headD [] = dd →
        ((req.method = "GET".toList ∨ req.method = "HEAD".toList) →
          (requestHandler fs ld req).1 = .notFound) ∧
        (requestHandler fs ld req).2 = [])) := by
  intro fs ld req hnr
  constructor
  · intro x hx
    obtain ⟨hhid, hform⟩ := handler_acc fs ld req x hx
    have hconf := confined_goClean (req.urlPath.drop 1) hnr hhid
    have hidx : ∀ j ∈ indexFiles, '/' ∉ j ∧ j ≠ dd := by decide
    rcases hform with rfl | ⟨i, hi, rfl⟩
    · exact hconf
    · exact confined_append _ i hconf (goClean_ne_nil _ hnr)
        (hidx i hi).1 (hidx i hi).2
  · intro hesc
    have hhid := hidden_of_escape (req.urlPath.drop 1) hnr hesc
    constructor
    · intro hm
      have hmne : ¬(req.method ≠ "GET".toList ∧ req.method ≠ "HEAD".toList) := by
        rcases hm with h | h <;> simp [h]
      unfold requestHandler
      rw [if_neg hmne]
      dsimp only
      rw [if_pos hhid]
    · unfold requestHandler
      split_ifs with hmth
      · rfl
      · dsimp only
        rw [if_pos hhid]

/-- C2 (witness): the index-probing request "/docs/" touches only
root-confined paths, and "/../../etc/passwd" is answered 404 with no
filesystem access. -/
theorem claim2_witness :
    (∀ x ∈ (requestHandler fsDemo true reqDocsSlash).2, confinedToRoot x) ∧
    (requestHandler fsDemo true reqEscape).1 = .notFound ∧
    (requestHandler fsDemo true reqEscape).2 = [] :=
  ⟨(claim2_amended_confinement fsDemo true reqDocsSlash (by decide)).1,
   ((claim2_amended_confinement fsDemo true reqEscape (by decide)).2
      (by decide)).1 (Or.inl rfl),
   ((claim2_amended_confinement fsDemo true reqEscape (by decide)).2
      (by decide)).2⟩

/-- C7 (code behaviour at the failing input): with listing enabled, a
directory whose template execution fails makes showListing re-throw
the error as a panic that escapes the handler (the `panicked`
response), instead of being caught and turned into a 500-class
answer as the specification requires. -/
theorem claim7_panic_on_render_error :
    (requestHandler fsDemo true reqBoom).1 = .panicked := by
  decide

/-- C3 (witness): a/b.txt (modified at 5000000005 ns) requested with
If-Modified-Since equal to its truncated modification time yields 304,
and the same request without the header is never a 304. -/
theorem claim3_witness :
    (respIs304 (requestHandler fsDemo false reqIms).1 = true ↔
      truncSec 5000000005 ≤ (5000000000 : Int)) ∧
    respIs304 (requestHandler fsDemo false reqNoIms).1 = false :=
  ⟨claim3_conditional_304.1 fsDemo false reqIms "a/b.txt".toList
      { isDir := false, size := 2000, modTimeNs := 5000000005 } 5000000000
      (Or.inl rfl) ⟨by decide, Or.inl (by decide)⟩ (by decide) rfl,
   claim3_conditional_304.2 fsDemo false reqNoIms rfl⟩

/-- C4 (witness): a 2000-byte .txt file requested with
Accept-Encoding gzip is served gzip-compressed. -/
theorem claim4_witness :
    respGz (requestHandler fsDemo false reqGzip).1 = some true :=
  (claim4_gzip_iff fsDemo false reqGzip "a/b.txt".toList
      { isDir := false, size := 2000, modTimeNs := 5000000005 }
      rfl ⟨by decide, Or.inl (by decide)⟩ (by decide) rfl).mpr
    ⟨by decide, by decide, by decide⟩

/-- C5 (witness): "/docs" (existing directory, no trailing separator)
is redirected, and the root "/" is never redirected. -/
theorem claim5_witness :
    (requestHandler fsDemo true reqDocsNoSlash).1 =
      .movedPermanently "/docs/".toList ∧
    (requestHandler fsDemo true reqRoot).1 ≠
      .movedPermanently "/docs/".toList := by
  constructor
  · have h := claim5_redirect.1 fsDemo true reqDocsNoSlash
      { isDir := true, size := 0, modTimeNs := 0 }
      (Or.inl rfl) (by decide) (by decide) rfl (by decide) (by decide)
    rw [h]
    decide
  · exact claim5_redirect.2 fsDemo true reqRoot "/docs/".toList (by decide)

/-- C6 (witness): "/docs/" with docs/index.html present serves the
index file (here with MIME text/html) and never renders a listing,
even with listing enabled. -/
theorem claim6_witness :
    ((requestHandler fsDemo true reqDocsSlash).1 =
      (serveFile fsDemo reqDocsSlash
        (goClean (reqDocsSlash.urlPath.drop 1) ++ '/' ::
          "index.html".toList)
        { isDir := false, size := 100, modTimeNs := 0 }).1 ∧
     ∀ pp ffs,
       (requestHandler fsDemo true reqDocsSlash).1 ≠ .listingPage pp ffs) ∧
    (requestHandler fsDemo true reqDocsSlash).1 =
      .served "docs/index.html".toList "text/html".toList 0 false false :=
  ⟨(claim6_index_probe fsDemo true reqDocsSlash
      { isDir := true, size := 0, modTimeNs := 0 }
      (Or.inl rfl) (by decide) (by decide) rfl (by decide)).1
      { isDir := false, size := 100, modTimeNs := 0 } (by decide) rfl,
   by decide⟩

/-- C8 (witness): the listing of "pub" (entries .hidden and x.txt)
drops the dotfile and shows x.txt exactly once. -/
theorem claim8_witness :
    (∀ f ∈ pubEntries, f.name.headD ' ' = '.' →
      f ∉ renderedEntries pubEntries) ∧
    (∀ f ∈ pubEntries, f.name.headD ' ' ≠ '.' →
      (renderedEntries pubEntries).count f = 1) :=
  claim8_listing_filter fsDemo true reqPub "pub".toList pubEntries
    (by decide) (by decide)

/-- C9 (witness): data.bin has no MIME entry and is served as
application/octet-stream. -/
theorem claim9_witness :
    (requestHandler fsDemo false reqBin).1 =
      .served "data.bin".toList "application/octet-stream".toList 0
        false false ∧
    lookupTable (goExt "data.bin".toList) mimes = none ∧
    "application/octet-stream".toList =
      "application/octet-stream".toList :=
  ⟨by decide, by decide,
   claim9_unknown_mime fsDemo false reqBin "data.bin".toList
     "application/octet-stream".toList 0 false false
     (by decide) (by decide)⟩

/-- C10 (witness): STYLE.CSS (2000 bytes, client accepts gzip) is
served as application/octet-stream and uncompressed, because "CSS" is
not a lowercase table key. -/
theorem claim10_witness :
    (requestHandler fsDemo false reqStyle).1 =
      .served "STYLE.CSS".toList "application/octet-stream".toList 0
        false false ∧
    hasUpperChar (goExt "STYLE.CSS".toList) = true ∧
    ("application/octet-stream".toList =
       "application/octet-stream".toList ∧ (false : Bool) = false) :=
  ⟨by decide, by decide,
   claim10_case_sensitive fsDemo false reqStyle "STYLE.CSS".toList
     "application/octet-stream".toList 0 false false
     (by decide) (by decide)⟩
